import Mathlib

/-!
# Verification of the cryo storage engine against its specification

Shallow embedding of the storage substrate of the cryo repository
(`src/storage/{row,page,btree,pager,log}.rs` plus the `header` constants of
`src/storage/mod.rs`), together with proofs and refutations of the frozen
claims about it.

The source tree mixes files from several revisions of the project, so the
embedding is organised by namespace:

* `BTreeE` — the B-Tree engine era: `page.rs` (`Page`, `cell_task`,
  `insert`/`select`) and `btree.rs` (`BTreeStorage`: descent, insert, split,
  select traversal), with the `header` constants of `mod.rs`.  The `Row`
  codec this era compiles against is not part of `src/`; it is modelled from
  the specification (§3, §4.1) and from the way `page.rs` decodes rows.
  File I/O is modelled at object granularity: the disk is a map from a page
  offset to the `Page` stored there, and the encode/decode round trip is
  taken as exact (spec §4.1/P6); the in-memory page cache of `btree.rs` only
  ever holds byte-identical copies of disk pages, so it is identified with
  the disk map.
* `RowE` — the `row.rs` present in `src/`: the record codec whose accessors
  guard the row kind.  The backing `Vec<u8>` is modelled by its decoded
  fields (the codec round-trips, spec P6); a Rust `panic!` is modelled by
  the `PanicOr.panicked` result.
* `PagerE` — the pager/WAL era: `pager.rs` (metadata, free list, cache,
  flush) and `log.rs` (`Logger::log`/`compact`).  Cached and on-disk page
  images are byte vectors; the metadata codec is modelled at word
  granularity (one list entry per encoded integer field, in the layout of
  `PagerMetadata::from_u8`).
-/

namespace BTreeE

/-! ## Constants from `src/storage/mod.rs` (`header::row`, `header::page`) -/

def ROW_ID_SIZE : Nat := 8
def ROW_OFFSET_SIZE : Nat := 8
def ROW_USERNAME_SIZE : Nat := 4 * 32
def ROW_EMAIL_SIZE : Nat := 4 * 255
def ROW_BODY_SIZE : Nat := ROW_ID_SIZE + ROW_USERNAME_SIZE + ROW_EMAIL_SIZE
def INTERNAL_ROW_SIZE : Nat := ROW_ID_SIZE + ROW_OFFSET_SIZE + ROW_OFFSET_SIZE

def PAGE_SIZE : Nat := 4096
def PAGE_HEADER_SIZE : Nat := 8 + 8 + 8 + 1

def CELLS_PER_LEAF : Nat := (PAGE_SIZE - PAGE_HEADER_SIZE) / ROW_BODY_SIZE
def CELLS_PER_INTERNAL : Nat := (PAGE_SIZE - PAGE_HEADER_SIZE) / INTERNAL_ROW_SIZE

def LEAF_SPLITAT : Nat := (CELLS_PER_LEAF / 2) + 1

/-- Modelled from the spec: `btree.rs` imports `INTERNAL_SPLITAT` from
`header::page`, but the revision of `mod.rs` in `src/` does not define it.
It is mirrored from the formula of the `LEAF_SPLITAT` constant that is
present (`(CELLS_PER_LEAF / 2) + 1`). -/
def INTERNAL_SPLITAT : Nat := (CELLS_PER_INTERNAL / 2) + 1

/-! ## Rows

Modelled from the spec (§3, §4.1): the `Row` codec used by this era of
`page.rs`/`btree.rs` is not under `src/`.  A row is a record with an `id`,
a kind, the two child pointers of an internal (separator) row, and the
variable-length value payload of a leaf row.  Serialized sizes follow the
decoder in `page.rs`: an internal row occupies `INTERNAL_ROW_SIZE` bytes, a
leaf row occupies `ROW_BODY_SIZE` bytes plus its value payload.  Equality
and ordering used by `binary_search` are by `id` (spec §3). -/

inductive RKind where
  | leaf
  | internal
deriving DecidableEq

structure Row where
  id : Nat
  kind : RKind
  left : Nat := 0
  right : Nat := 0
  value : List Nat := []
deriving DecidableEq

def Row.size (r : Row) : Nat :=
  match r.kind with
  | .internal => INTERNAL_ROW_SIZE
  | .leaf => ROW_BODY_SIZE + r.value.length

/-- A leaf data row carrying an empty payload, as produced by
`Row::new()` + `set_id` on the insert path of `btree.rs`. -/
def leafRow (i : Nat) : Row := { id := i, kind := .leaf }

/-- An internal (separator) row, spec §4.1 constructor
`internal(id, left, right)`. -/
def internalRow (i l r : Nat) : Row := { id := i, kind := .internal, left := l, right := r }

/-! ## Binary search

`Vec::binary_search` of the Rust standard library, specialised to the `Ord`
instance of `Row` (comparison by `id`).  `Except.ok p` is Rust's
`Ok(p)` (hit at `p`), `Except.error p` is `Err(p)` (insertion point `p`).
The structural `fuel` argument starts at the slice length, which bounds the
number of iterations of the `while left < right` loop. -/

def binSearchGo (l : List Row) (key : Nat) : Nat → Nat → Nat → Except Nat Nat
  | 0, lo, _ => .error lo
  | fuel + 1, lo, hi =>
    if lo < hi then
      let mid := lo + (hi - lo) / 2
      match l[mid]? with
      | none => .error lo
      | some r =>
        if r.id < key then binSearchGo l key fuel (mid + 1) hi
        else if key < r.id then binSearchGo l key fuel lo mid
        else .ok mid
    else .error lo

def binarySearch (l : List Row) (row : Row) : Except Nat Nat :=
  binSearchGo l row.id l.length 0 l.length

/-! ## Errors (`src/storage/mod.rs` `error` module)

The variants are the union of those declared in `mod.rs` and those used by
`page.rs`/`btree.rs` (the revisions differ).  `StorageErrorCause::Error`
boxes a nested `StorageError`; on the insert path the nested error is
always a page error, so the box is flattened to the wrapped page action and
cause.  A Rust `panic!` site (index out of bounds, `split_off` past the
end, searching a leaf) is marked `panicked`; exhaustion of the structural
fuel that replaces source-level `loop`/recursion is marked `fuel`. -/

inductive PageAction where
  | read
  | insert
  | select
  | write
  | delete
  | update
  | retrieve
deriving DecidableEq

inductive PageErrorCause where
  | full
  | duplicate
  | unknown
  | dataWrangling
  | inUse
  | missing
deriving DecidableEq

inductive StorageAction where
  | page
  | pageOut
  | pageCreate
  | insert
  | splitLeaf
  | query
  | search
  | delete
deriving DecidableEq

inductive StorageErrCause where
  | outOfBounds
  | unknown
  | cacheMiss
  | pageInUse
  | io
  | wrapped (action : PageAction) (cause : PageErrorCause)
  | panicked
  | fuel
deriving DecidableEq

inductive StorageError where
  | page (action : PageAction) (cause : PageErrorCause)
  | storage (action : StorageAction) (cause : StorageErrCause)
deriving DecidableEq

/-! ## Pages (`src/storage/page.rs`) -/

inductive PageKind where
  | internal (offsets : List Row)
  | leaf (rows : List Row)
deriving DecidableEq

structure Page where
  kind : Option PageKind
  id : Nat
  offset : Nat
  parent : Nat
  cells : Nat
deriving DecidableEq

def Page.new (offset id : Nat) (kind : PageKind) (cells parent : Nat) : Page :=
  { kind := some kind, id := id, offset := offset, parent := parent, cells := cells }

/-- `Page::leaf` (panics when the kind is unknown; callers below guard the
`none` case explicitly, so this total version is only applied to pages with
a kind). -/
def Page.leafB (p : Page) : Bool :=
  match p.kind with
  | some (.leaf _) => true
  | _ => false

/-- `Page::select`: a snapshot of the rows. -/
def Page.selectRows (p : Page) : Except StorageError (List Row) :=
  match p.kind with
  | none => .error (.page .select .unknown)
  | some (.internal offsets) => .ok offsets
  | some (.leaf rows) => .ok rows

def Row.setLeft (r : Row) (v : Nat) : Row := { r with left := v }

def Row.setRight (r : Row) (v : Nat) : Row := { r with right := v }

/-- The neighbour relink step of `cell_task` for internal pages: after the
task left position `pos`, `offsets[pos-1].right ← offsets[pos].left` (when
`pos > 0`) and `offsets[pos+1].left ← offsets[pos].right` (when
`pos + 1 < n`). -/
def relink (offsets : List Row) (pos : Nat) : List Row :=
  match offsets[pos]? with
  | none => offsets
  | some atPos =>
    let offsets :=
      if 0 < pos then
        match offsets[pos - 1]? with
        | none => offsets
        | some prev => offsets.set (pos - 1) (prev.setRight atPos.left)
      else offsets
    match offsets[pos + 1]? with
    | none => offsets
    | some next => offsets.set (pos + 1) (next.setLeft atPos.right)

/-- The `bin_insert` closure of `Page::insert`: binary-search by id, fail
`Duplicate` on a hit, insert at the returned position on a miss. -/
def binInsertTask (items : List Row) (row : Row) :
    Except StorageError (Nat × List Row) :=
  match binarySearch items row with
  | .ok _ => .error (.page .insert .duplicate)
  | .error pos => .ok (pos, items.insertIdx pos row)

/-- `Page::cell_task` specialised to the insert task.  The capacity check
(`self.cells + row.size() >= PAGE_SIZE`) precedes the task for both kinds;
internal pages additionally relink neighbours after the task.  On a task
error the Rust source leaves `self.kind` taken (`None`); every caller in
`btree.rs` discards the page value on that path, so the embedding returns
only the error. -/
def cellTaskInsert (p : Page) (row : Row) : Except StorageError Page :=
  match p.kind with
  | none => .error (.page .insert .unknown)
  | some (.internal offsets) =>
    if PAGE_SIZE ≤ p.cells + row.size then .error (.page .insert .full)
    else
      match binInsertTask offsets row with
      | .error e => .error e
      | .ok (pos, offsets) => .ok { p with kind := some (.internal (relink offsets pos)) }
  | some (.leaf rows) =>
    if PAGE_SIZE ≤ p.cells + row.size then .error (.page .insert .full)
    else
      match binInsertTask rows row with
      | .error e => .error e
      | .ok (_, rows) => .ok { p with kind := some (.leaf rows) }

/-- `Page::insert`: run the insert task, then `self.cells += row.size()`. -/
def Page.insert (p : Page) (row : Row) : Except StorageError Page :=
  match cellTaskInsert p row with
  | .error e => .error e
  | .ok p' => .ok { p' with cells := p'.cells + row.size }

/-! ## The B-Tree storage (`src/storage/btree.rs`)

State of `BTreeStorage`.  The backing file is the map `disk` from a byte
offset to the page stored there; the bounded page cache only ever holds
byte-identical copies of disk pages (pages are mutated on owned copies and
written back through `write_to_disk`), so cache and file are identified.
`reader`/`writer` handles are subsumed by `disk`. -/

structure BT where
  disk : List (Nat × Page)
  pages : Nat
  root : Nat
  current : Nat
  breadcrumbs : List (Nat × Nat)
deriving DecidableEq

def diskLookup : List (Nat × Page) → Nat → Option Page
  | [], _ => none
  | e :: rest, offset => if e.1 = offset then some e.2 else diskLookup rest offset

def diskStore (d : List (Nat × Page)) (p : Page) : List (Nat × Page) :=
  (p.offset, p) :: d.filter (fun e => e.1 ≠ p.offset)

/-- `read_from_disk` (also `uncache`-then-read: the cache holds the same
bytes).  Reading an offset that was never written fails the underlying
`read_exact` with an I/O error. -/
def readDisk (st : BT) (offset : Nat) : Except StorageError Page :=
  match diskLookup st.disk offset with
  | some p => .ok p
  | none => .error (.storage .page .io)

/-- `BTreeStorage::page`: bound check
(`offset >= self.pages * PAGE_SIZE + PAGE_SIZE` is out of bounds), then
cache-or-disk read. -/
def pageAt (st : BT) (offset : Nat) : Except StorageError Page :=
  if st.pages * PAGE_SIZE + PAGE_SIZE ≤ offset then
    .error (.storage .page .outOfBounds)
  else readDisk st offset

/-- `write_to_disk`. -/
def writeBack (st : BT) (p : Page) : BT :=
  { st with disk := diskStore st.disk p }

/-- `BTreeStorage::create`: a fresh page at offset
`pages * PAGE_SIZE + PAGE_SIZE` with id `pages`, written out, and the page
count bumped.  Returns the new offset. -/
def create (st : BT) (kind : PageKind) (cells parent : Nat) : BT × Nat :=
  let offset := st.pages * PAGE_SIZE + PAGE_SIZE
  let page := Page.new offset st.pages kind cells parent
  ({ writeBack st page with pages := st.pages + 1 }, offset)

/-- The freshly opened storage: `BTreeStorage::new` on an empty file
creates one empty leaf page and makes it the root. -/
def freshBT : BT :=
  let st : BT := { disk := [], pages := 0, root := 0, current := 0, breadcrumbs := [] }
  let (st, offset) := create st (.leaf []) 0 0
  { st with root := offset }

/-- `BTreeStorage::search_internal`.  On an exact hit at `pos` the descent
enters `pointers[pos].right`; on a miss the chosen pointer is
`pointers[pos]` when `pos < n` and `pointers[pos - 1]` otherwise, and the
descent enters its `left` child when `pointer.id >= row.id`, its `right`
child otherwise.  The index of the chosen pointer is pushed onto
`breadcrumbs`.  Calling it on a leaf page panics in the source; a miss on
an empty pointer list indexes `pointers[pos - 1]` out of bounds, another
panic. -/
def searchInternal (st : BT) (row : Row) : BT × Except StorageError Unit :=
  match pageAt st st.current with
  | .error e => (st, .error e)
  | .ok page =>
    match page.kind with
    | none => (st, .error (.storage .search .panicked))
    | some (.leaf _) => (st, .error (.storage .search .panicked))
    | some (.internal pointers) =>
      match binarySearch pointers row with
      | .ok pos =>
        match pointers[pos]? with
        | none => (st, .error (.storage .search .panicked))
        | some ptr =>
          ({ st with breadcrumbs := st.breadcrumbs ++ [(st.current, pos)],
                     current := ptr.right }, .ok ())
      | .error pos =>
        if pos == pointers.length then
          match pointers[pos - 1]? with
          | none => (st, .error (.storage .search .panicked))
          | some ptr =>
            ({ st with breadcrumbs := st.breadcrumbs ++ [(st.current, pos - 1)],
                       current := if row.id ≤ ptr.id then ptr.left else ptr.right }, .ok ())
        else
          match pointers[pos]? with
          | none => (st, .error (.storage .search .panicked))
          | some ptr =>
            ({ st with breadcrumbs := st.breadcrumbs ++ [(st.current, pos)],
                       current := if row.id ≤ ptr.id then ptr.left else ptr.right }, .ok ())

/-- `BTreeStorage::split_child`.  The parent is read up front; the rows of
the overfull page are split at the fixed `LEAF_SPLITAT`/`INTERNAL_SPLITAT`
position (`Vec::split_off`); the separator keeps the first key of the right
half with `left` the old page and `right` the freshly created sibling; the
triggering row is inserted into the half chosen by comparing its id with
the separator key; finally parent, old page and sibling are written out.

For an internal split the children of the moved rows are reparented to the
sibling.  The source collects them through `Row::offset()`, an accessor of
the missing row codec; modelled from the spec (§4.4 split step 4,
"reparent each child of the rows that moved into `R`"): the `left` and
`right` child of every moved separator row. -/
def reparent (st : BT) (child target : Nat) : BT × Except StorageError Unit :=
  match readDisk st child with
  | .error e => (st, .error e)
  | .ok page => (writeBack st { page with parent := target }, .ok ())

def reparentAll (st : BT) (children : List Nat) (target : Nat) :
    BT × Except StorageError Unit :=
  match children with
  | [] => (st, .ok ())
  | c :: rest =>
    match reparent st c target with
    | (st, .error e) => (st, .error e)
    | (st, .ok ()) => reparentAll st rest target

def splitChild (st : BT) (target : Page) (row : Row) : BT × Except StorageError Row :=
  let parentOffset := target.parent
  match readDisk st parentOffset with
  | .error e => (st, .error e)
  | .ok parent =>
    match target.selectRows with
    | .error e => (st, .error e)
    | .ok candidates =>
      let splitat := if target.leafB then LEAF_SPLITAT else INTERNAL_SPLITAT
      if candidates.length < splitat then (st, .error (.storage .splitLeaf .panicked))
      else
        let leftCandidates := candidates.take splitat
        let rightCandidates := candidates.drop splitat
        let leftCells := leftCandidates.length
        let rightCells := rightCandidates.length
        match rightCandidates.head? with
        | none => (st, .error (.storage .splitLeaf .panicked))
        | some rightHead =>
          let key := rightHead.id
          let step :=
            if target.leafB then
              let (st, rightOffset) := create st (.leaf rightCandidates) rightCells parentOffset
              let target := { target with kind := some (.leaf leftCandidates), cells := leftCells }
              (st, target, rightOffset, Except.ok ())
            else
              let childPages := rightCandidates.flatMap (fun r => [r.left, r.right])
              let (st, rightOffset) := create st (.internal rightCandidates) rightCells parentOffset
              let (st, res) := reparentAll st childPages rightOffset
              let target := { target with kind := some (.internal leftCandidates), cells := leftCells }
              (st, target, rightOffset, res)
          match step with
          | (st, _, _, .error e) => (st, .error e)
          | (st, target, rightOffset, .ok ()) =>
            match readDisk st rightOffset with
            | .error e => (st, .error e)
            | .ok right =>
              let pointer := internalRow key target.offset right.offset
              if key ≤ row.id then
                let reparented :=
                  if target.leafB then (st, Except.ok ())
                  else
                    match reparent st row.left right.offset with
                    | (st, .error e) => (st, .error e)
                    | (st, .ok ()) => reparent st row.right right.offset
                match reparented with
                | (st, .error e) => (st, .error e)
                | (st, .ok ()) =>
                  match right.insert row with
                  | .error e => (st, .error e)
                  | .ok right =>
                    let st := writeBack st parent
                    let st := writeBack st target
                    let st := writeBack st right
                    (st, .ok pointer)
              else
                match target.insert row with
                | .error e => (st, .error e)
                | .ok target =>
                  let st := writeBack st parent
                  let st := writeBack st target
                  let st := writeBack st right
                  (st, .ok pointer)

/-- `BTreeStorage::split`.  When the overfull page is the root a fresh
internal page becomes the new root and receives the separator; otherwise
the separator is inserted into the parent, and a `Full` there recurses on
the parent.  The structural `fuel` bounds that recursion (the source
recurses up the finite parent chain). -/
def split : Nat → BT → Page → Row → BT × Except StorageError Unit
  | 0, st, _, _ => (st, .error (.storage .insert .fuel))
  | fuel + 1, st, target, row =>
    if target.offset == st.root then
      let (st, parentOffset) := create st (.internal []) 0 st.root
      match readDisk st parentOffset with
      | .error e => (st, .error e)
      | .ok parent =>
        let parent := { parent with parent := parent.offset }
        let target := { target with parent := parentOffset }
        let st := { st with root := parent.offset }
        match splitChild st target row with
        | (st, .error e) => (st, .error e)
        | (st, .ok separator) =>
          match parent.insert separator with
          | .error e => (st, .error e)
          | .ok parent => (writeBack st parent, .ok ())
    else
      let parentOffset := target.parent
      match splitChild st target row with
      | (st, .error e) => (st, .error e)
      | (st, .ok pointer) =>
        let st := { st with current := parentOffset }
        match readDisk st parentOffset with
        | .error e => (st, .error e)
        | .ok parent =>
          match parent.insert pointer with
          | .ok parent => (writeBack st parent, .ok ())
          | .error (.page _ .full) =>
            let st := { st with current := parent.offset }
            split fuel st parent pointer
          | .error e => (st, .error e)

/-- The `loop` of `BTreeStorage::insert`: descend through internal pages
via `search_internal`; at the leaf run `Page::insert`, writing back on
success, splitting on `Full`, and wrapping any other page error as
`StorageError::Storage { action: Insert, cause: Error(..) }`. -/
def insertLoop : Nat → BT → Row → BT × Except StorageError Unit
  | 0, st, _ => (st, .error (.storage .insert .fuel))
  | fuel + 1, st, row =>
    match pageAt st st.current with
    | .error e => (st, .error e)
    | .ok page =>
      match page.kind with
      | none => (st, .error (.storage .insert .panicked))
      | some (.internal _) =>
        match searchInternal st row with
        | (st, .error e) => (st, .error e)
        | (st, .ok ()) => insertLoop fuel st row
      | some (.leaf _) =>
        match readDisk st st.current with
        | .error e => (st, .error e)
        | .ok page =>
          match page.insert row with
          | .ok page => (writeBack st page, .ok ())
          | .error (.page _ .full) => split (st.pages + 2) st page row
          | .error (.page a c) => (st, .error (.storage .insert (.wrapped a c)))
          | .error e => (st, .error e)

/-- `BTreeStorage::insert`: reset `current` to the root and run the loop.
The descent fuel `pages + 2` covers any acyclic descent (the path visits
distinct pages). -/
def btInsert (st : BT) (row : Row) : BT × Except StorageError Unit :=
  let st := { st with current := st.root }
  insertLoop (st.pages + 2) st row

/-- The descent prefix of the insert loop alone: stops successfully at the
first leaf.  Used to phrase hypotheses about "the leaf that the locate
phase reaches". -/
def locateLoop : Nat → BT → Row → BT × Except StorageError Unit
  | 0, st, _ => (st, .error (.storage .insert .fuel))
  | fuel + 1, st, row =>
    match pageAt st st.current with
    | .error e => (st, .error e)
    | .ok page =>
      match page.kind with
      | none => (st, .error (.storage .insert .panicked))
      | some (.internal _) =>
        match searchInternal st row with
        | (st, .error e) => (st, .error e)
        | (st, .ok ()) => locateLoop fuel st row
      | some (.leaf _) => (st, .ok ())

def btLocate (st : BT) (row : Row) : BT × Except StorageError Unit :=
  let st := { st with current := st.root }
  locateLoop (st.pages + 2) st row

/-! `BTreeStorage::select_traverse` (with the pointer loop as the mutual
`selectChildren`): a depth-first walk from `current`, skipping pages whose
id was already visited, concatenating leaf rows, and recursing into the
`left` then `right` child of every pointer of an internal page.  The
structural fuel bounds the total number of recursive calls. -/
mutual

def selectTraverse : Nat → BT → List Nat → Except StorageError (BT × List Nat × List Row)
  | 0, _, _ => .error (.storage .query .fuel)
  | fuel + 1, st, visited =>
    match pageAt st st.current with
    | .error e => .error e
    | .ok page =>
      if visited.contains page.id then .ok (st, visited, [])
      else
        let visited := visited ++ [page.id]
        match page.kind with
        | none => .error (.page .select .unknown)
        | some (.leaf rows) => .ok (st, visited, rows)
        | some (.internal pointers) => selectChildren fuel pointers st visited

def selectChildren : Nat → List Row → BT → List Nat →
    Except StorageError (BT × List Nat × List Row)
  | 0, _, _, _ => .error (.storage .query .fuel)
  | fuel + 1, pointers, st, visited =>
    match pointers with
    | [] => .ok (st, visited, [])
    | ptr :: rest =>
      match selectTraverse fuel { st with current := ptr.left } visited with
      | .error e => .error e
      | .ok (st, visited, out1) =>
        match selectTraverse fuel { st with current := ptr.right } visited with
        | .error e => .error e
        | .ok (st, visited, out2) =>
          match selectChildren fuel rest st visited with
          | .error e => .error e
          | .ok (st, visited, out3) => .ok (st, visited, out1 ++ out2 ++ out3)

end

/-- `BTreeStorage::select`: traverse from the root.  The fuel bounds the
sum, over the pages on any descent path, of their pointer counts; every
page holds fewer than `PAGE_SIZE` rows, so `(pages + 2) * PAGE_SIZE` is
ample for any state reachable here. -/
def btSelect (st : BT) : Except StorageError (List Row) :=
  let st := { st with current := st.root }
  match selectTraverse ((st.pages + 2) * PAGE_SIZE) st [] with
  | .error e => .error e
  | .ok (_, _, rows) => .ok rows

def btSelectIds (st : BT) : Option (List Nat) :=
  match btSelect st with
  | .error _ => none
  | .ok rows => some (rows.map Row.id)

/-- Fold a sequence of leaf-row inserts, recording whether every insert
succeeded. -/
def insertAll (st : BT) (ids : List Nat) : BT × Bool :=
  ids.foldl
    (fun acc i =>
      match btInsert acc.1 (leafRow i) with
      | (st, .ok ()) => (st, acc.2)
      | (st, .error _) => (st, false))
    (st, true)

def isStrictSorted : List Nat → Bool
  | [] => true
  | [_] => true
  | a :: b :: rest => a < b && isStrictSorted (b :: rest)

/-- The ids of the rows of the page stored at `offset`. -/
def pageIdsAt (st : BT) (offset : Nat) : Option (List Nat) :=
  match diskLookup st.disk offset with
  | none => none
  | some p =>
    match p.kind with
    | none => none
    | some (.internal offsets) => some (offsets.map Row.id)
    | some (.leaf rows) => some (rows.map Row.id)

/-! ## Concrete states

`leafPage123`/`stC2`: the storage reached from a fresh open by inserting
leaf rows with ids 1, 2, 3 — a single full leaf (three leaf rows of 1156
bytes each, `cells = 3468`, so one more 1156-byte row trips the `Full`
check `3468 + 1156 ≥ 4096`). -/

def leafPage123 : Page :=
  { kind := some (.leaf [leafRow 1, leafRow 2, leafRow 3]), id := 0, offset := 4096,
    parent := 0, cells := 3468 }

def stC2 : BT :=
  { disk := [(4096, leafPage123)], pages := 1, root := 4096, current := 4096,
    breadcrumbs := [] }

/-! `stShared`: a three-level storage of the exact shape `split_child`
produces once an internal page has split.  History it mirrors (each field
below is what the code computes):

* the old internal root `pageT2` split: `pageT2` kept its first separator
  (`cells` overwritten with the row *count* 1 by `split_child`), the new
  sibling `pageR2` received the remaining separator `(40, C, B)` (count 1),
  and the new root `pageP2` got the separator `(40, T, R)` (24 bytes);
  because the promoted key 40 stays in `pageR2`, the boundary leaf `pageC2`
  is referenced both by `pageT2.rows[last].right` and as a `left` child
  under `pageR2`, and was reparented to `pageR2`;
* the shared leaf `pageC2` then itself filled up and split: it kept
  `[20, 30]` (count 2), the new leaf `pageD2` took `[32, 34, 36]` plus the
  triggering row 38 (`cells = 3 + 1156`), and the separator `(32, C, D)`
  went to `pageC2`'s parent `pageR2` (`cells = 1 + 24`), relinking
  `pageR2`'s other separator to `(40, D, B)`.

From this state, inserting a row with id 39 descends left of the root
separator 40 into `pageT2`, then right of separator 20 into the shared
leaf `pageC2` — even though 39 is larger than the keys 32..38 stored under
`pageR2`'s first separator — so `select()` reports 39 before 32.  A fresh
tree reaches a state of this shape only after an internal split
(hundreds of inserts); the behaviour shown here was confirmed on such runs
of the same definitions. -/

def pageA2 : Page :=
  { kind := some (.leaf [leafRow 10, leafRow 15]), id := 0, offset := 4096,
    parent := 16384, cells := 2 }

def pageC2 : Page :=
  { kind := some (.leaf [leafRow 20, leafRow 30]), id := 1, offset := 8192,
    parent := 20480, cells := 2 }

def pageB2 : Page :=
  { kind := some (.leaf [leafRow 40, leafRow 50]), id := 2, offset := 12288,
    parent := 20480, cells := 2 }

def pageT2 : Page :=
  { kind := some (.internal [internalRow 20 4096 8192]), id := 3, offset := 16384,
    parent := 24576, cells := 1 }

def pageR2 : Page :=
  { kind := some (.internal [internalRow 32 8192 28672, internalRow 40 28672 12288]),
    id := 4, offset := 20480, parent := 24576, cells := 25 }

def pageP2 : Page :=
  { kind := some (.internal [internalRow 40 16384 20480]), id := 5, offset := 24576,
    parent := 24576, cells := 24 }

def pageD2 : Page :=
  { kind := some (.leaf [leafRow 32, leafRow 34, leafRow 36, leafRow 38]), id := 6,
    offset := 28672, parent := 20480, cells := 1159 }

def stShared : BT :=
  { disk := [(4096, pageA2), (8192, pageC2), (12288, pageB2), (16384, pageT2),
             (20480, pageR2), (24576, pageP2), (28672, pageD2)],
    pages := 7, root := 24576, current := 24576, breadcrumbs := [] }

/-! `bigInternal`: the internal page obtained by inserting the separators
`(i, i, i+1)` for `i = 1..169` in ascending order into an empty internal
page (`foldBig` below performs exactly those inserts); each insert adds
`INTERNAL_ROW_SIZE = 24` bytes, so `cells = 4056`.  169 is
`CELLS_PER_INTERNAL`, the most separators that fit into the
`PAGE_SIZE − PAGE_HEADER_SIZE = 4071` byte body budget. -/

def emptyInternalPage : Page :=
  { kind := some (.internal []), id := 0, offset := 4096, parent := 0, cells := 0 }

def bigRows : List Row := (List.range 169).map (fun k => internalRow (k + 1) (k + 1) (k + 2))

def bigInternal : Page :=
  { kind := some (.internal bigRows), id := 0, offset := 4096, parent := 0, cells := 4056 }

def insStep (p : Page) (k : Nat) : Page :=
  match p.insert (internalRow (k + 1) (k + 1) (k + 2)) with
  | .ok p2 => p2
  | .error _ => p

def foldBig : Page := (List.range 169).foldl insStep emptyInternalPage

/-- The page after the first `n` of those inserts: `n` chained separators
and `n * INTERNAL_ROW_SIZE = 24 n` used bytes. -/
def bigPage (n : Nat) : Page :=
  { kind := some (.internal ((List.range n).map (fun k => internalRow (k + 1) (k + 1) (k + 2)))),
    id := 0, offset := 4096, parent := 0, cells := 24 * n }

/-! A small two-level storage used as a witness input for the descent
theorems: an internal root with two separators over three leaves. -/

def wLeafA : Page :=
  { kind := some (.leaf [leafRow 1, leafRow 2]), id := 0, offset := 4096,
    parent := 16384, cells := 2312 }

def wLeafB : Page :=
  { kind := some (.leaf [leafRow 3, leafRow 4]), id := 1, offset := 8192,
    parent := 16384, cells := 2312 }

def wLeafC : Page :=
  { kind := some (.leaf [leafRow 5, leafRow 6]), id := 2, offset := 12288,
    parent := 16384, cells := 2312 }

def wRoot : Page :=
  { kind := some (.internal [internalRow 3 4096 8192, internalRow 5 8192 12288]),
    id := 3, offset := 16384, parent := 16384, cells := 48 }

def stW : BT :=
  { disk := [(4096, wLeafA), (8192, wLeafB), (12288, wLeafC), (16384, wRoot)],
    pages := 4, root := 16384, current := 16384, breadcrumbs := [] }

/-! A mid-split snapshot used as a witness input for the leaf `split_child`
theorem: the three-row leaf `leafPage123` about to be split under a freshly
created empty internal root at offset 8192 (the state `split` reaches just
before calling `split_child` on a full root leaf). -/

def stMid : BT :=
  { disk := [(8192, Page.new 8192 1 (.internal []) 0 4096), (4096, leafPage123)],
    pages := 2, root := 8192, current := 4096, breadcrumbs := [] }

def tgtMid : Page := { leafPage123 with parent := 8192 }

end BTreeE

namespace RowE

/-! ## The row codec of `src/storage/row.rs`

The revision of `row.rs` present in `src/`: a row is a byte vector holding
`id`, a type tag, and either the two child offsets (internal) or the
fixed-size username/email payload (leaf).  The byte vector is modelled by
its decoded fields — the codec round-trips exactly (spec P6), and
`Row::new` zero-initialises every field.  An accessor applied to the wrong
row kind executes Rust `panic!`, which aborts the program; the
`PanicOr.panicked` result records that, carrying the panic message. -/

inductive RowType where
  | leaf
  | internal
deriving DecidableEq

inductive PanicOr (α : Type) where
  | ok (a : α)
  | panicked (msg : String)
deriving DecidableEq

def USERNAME_MAX_LENGTH : Nat := 32
def EMAIL_MAX_LENGTH : Nat := 255
def ROW_USERNAME_SIZE : Nat := 4 * USERNAME_MAX_LENGTH
def ROW_EMAIL_SIZE : Nat := 4 * EMAIL_MAX_LENGTH

structure Row where
  idField : Nat
  typeField : RowType
  leftField : Nat
  rightField : Nat
  usernameBytes : List Nat
  emailBytes : List Nat
deriving DecidableEq

/-- `Row::new(id, _type)`: a zero-initialised row of the requested kind. -/
def Row.new (id : Nat) (t : RowType) : Row :=
  { idField := id, typeField := t, leftField := 0, rightField := 0,
    usernameBytes := List.replicate ROW_USERNAME_SIZE 0,
    emailBytes := List.replicate ROW_EMAIL_SIZE 0 }

/-- `Row::id` (reads the id bytes; total for every row). -/
def Row.id (r : Row) : Nat := r.idField

/-- `Row::username`: panics when called on a non-leaf row. -/
def Row.username (r : Row) : PanicOr (List Nat) :=
  if r.typeField ≠ .leaf then .panicked "username() called on a non-leaf row"
  else .ok r.usernameBytes

/-- `Row::email`: panics when called on a non-leaf row. -/
def Row.email (r : Row) : PanicOr (List Nat) :=
  if r.typeField ≠ .leaf then .panicked "email() called on a non-leaf row"
  else .ok r.emailBytes

/-- `Row::left_offset`: panics when called on a non-internal row. -/
def Row.left_offset (r : Row) : PanicOr Nat :=
  if r.typeField ≠ .internal then .panicked "left_offset() called on a non-internal row"
  else .ok r.leftField

/-- `Row::right_offset`: panics when called on a non-internal row. -/
def Row.right_offset (r : Row) : PanicOr Nat :=
  if r.typeField ≠ .internal then .panicked "right_offset() called on a non-internal row"
  else .ok r.rightField

/-- Whether an accessor result is an error *value* (as opposed to a
completed read or an aborted program): the `StorageError` enum of `mod.rs`
has no `KindMismatch` variant, and these accessors return plain values or
panic, so no accessor result is ever an error value. -/
def isErrorValue {α : Type} : PanicOr α → Bool
  | .ok _ => false
  | .panicked _ => false

end RowE

namespace PagerE

/-! ## The pager (`src/storage/pager.rs`)

Cached and on-disk page images are byte vectors (`Vec<u8>`), modelled as
`List Nat`.  The cache is the `BTreeMap<usize, Arc<Mutex<Vec<u8>>>>`,
modelled as an association list sorted by key; the backing file is a map
from byte offset to the page image written there.  The metadata codec
(`PagerMetadata::from_u8` / `From<&PagerMetadata>`) lays out root, free
list length, page count, then the free list; it is modelled at word
granularity: one list entry per encoded integer. -/

abbrev Bytes := List Nat

def PAGE_SIZE : Nat := 4096

inductive PagerError where
  | io
  | corrupt
  | outOfBounds
  | poisonedState
deriving DecidableEq

structure PagerMetadata where
  free_pages : List Nat
  pages : Nat
  root : Nat
deriving DecidableEq

/-- The metadata page image: root, free-list length, page count, free list
(the field layout of `From<&PagerMetadata> for [u8; PAGE_SIZE]`, one entry
per encoded integer). -/
def encodeMeta (m : PagerMetadata) : Bytes :=
  m.root :: m.free_pages.length :: m.pages :: m.free_pages

/-- A zeroed page image (`vec![0; PAGE_SIZE]`). -/
def zeroPage : Bytes := List.replicate PAGE_SIZE 0

/-- The image of the empty leaf page written at bootstrap
(`Page::new(PageType::Leaf, None, vec![], 0).as_bytes()`); no claim decodes
it, so only its identity matters. -/
def emptyLeafImage : Bytes := [1, 0, 0, 0]

def mapGet : List (Nat × Bytes) → Nat → Option Bytes
  | [], _ => none
  | e :: rest, k => if e.1 = k then some e.2 else mapGet rest k

/-- Key-sorted insert-or-replace (the `BTreeMap` entry update). -/
def mapPut (m : List (Nat × Bytes)) (k : Nat) (v : Bytes) : List (Nat × Bytes) :=
  match m with
  | [] => [(k, v)]
  | e :: rest =>
    if k < e.1 then (k, v) :: e :: rest
    else if k = e.1 then (k, v) :: rest
    else e :: mapPut rest k v

def mapDel (m : List (Nat × Bytes)) (k : Nat) : List (Nat × Bytes) :=
  m.filter (fun e => e.1 ≠ k)

structure Pager where
  cache : List (Nat × Bytes)
  commit : Bool
  metadata : PagerMetadata
  file : List (Nat × Bytes)
deriving DecidableEq

/-- `Pager::commit`. -/
def Pager.setCommit (p : Pager) (b : Bool) : Pager := { p with commit := b }

/-- `Pager::root`. -/
def Pager.root (p : Pager) : Nat := p.metadata.root

/-- `stored_bytes(id, Some(update))`: replace or create the cache entry. -/
def storedPut (p : Pager) (id : Nat) (b : Bytes) : Pager :=
  { p with cache := mapPut p.cache id b }

/-- `stored_bytes(id, None)`: the cached image, paging it in from the file
on a miss. -/
def storedGet (p : Pager) (id : Nat) : Pager × Except PagerError Bytes :=
  match mapGet p.cache id with
  | some b => (p, .ok b)
  | none =>
    match mapGet p.file (id * PAGE_SIZE) with
    | some b => (storedPut p id b, .ok b)
    | none => (p, .error .io)

/-- `Pager::is_valid`: ids at or beyond the page count that are not on the
free list are out of bounds. -/
def isValid (p : Pager) (id : Nat) : Bool :=
  !(p.metadata.pages ≤ id && !(p.metadata.free_pages.contains id))

/-! `write_metadata` bootstraps an empty pager (page count 0) by allocating
the metadata page and the first leaf page; `allocate` in turn persists the
metadata.  The mutual recursion is bounded: `allocate` leaves the page
count positive, so the nested `write_metadata` call takes the plain branch.
The structural `fuel` (3 suffices from every entry point) makes that
explicit. -/

mutual

def writeMetadataF : Nat → Pager → Pager × Except PagerError Unit
  | 0, p => (p, .error .io)
  | fuel + 1, p =>
    if p.metadata.pages = 0 then
      match allocateF fuel p with
      | (p, .error e) => (p, .error e)
      | (p, .ok _) =>
        match allocateF fuel p with
        | (p, .error e) => (p, .error e)
        | (p, .ok rootId) =>
          let p := { p with metadata := { p.metadata with root := rootId } }
          if isValid p rootId then
            let p := storedPut p rootId emptyLeafImage
            (storedPut p 0 (encodeMeta p.metadata), .ok ())
          else (p, .error .outOfBounds)
    else (storedPut p 0 (encodeMeta p.metadata), .ok ())

def allocateF : Nat → Pager → Pager × Except PagerError Nat
  | 0, p => (p, .error .io)
  | fuel + 1, p =>
    let (p, id) :=
      match p.metadata.free_pages.getLast? with
      | some id =>
        ({ p with metadata := { p.metadata with free_pages := p.metadata.free_pages.dropLast } },
         id)
      | none =>
        let id := p.metadata.pages
        ({ p with metadata := { p.metadata with pages := p.metadata.pages + 1 } }, id)
    match writeMetadataF fuel p with
    | (p, .error e) => (p, .error e)
    | (p, .ok ()) => (storedPut p id zeroPage, .ok id)

end

def writeMetadata (p : Pager) : Pager × Except PagerError Unit := writeMetadataF 3 p

/-- `Pager::allocate`. -/
def allocate (p : Pager) : Pager × Except PagerError Nat := allocateF 3 p

/-- `Pager::free`: validity check, drop the cache entry, push onto the free
list, persist metadata. -/
def free (p : Pager) (id : Nat) : Pager × Except PagerError Unit :=
  if isValid p id then
    let p := { p with cache := mapDel p.cache id }
    let p := { p with metadata := { p.metadata with free_pages := p.metadata.free_pages ++ [id] } }
    writeMetadata p
  else (p, .error .outOfBounds)

/-- `Pager::write`: validity check, then write through to the cache. -/
def write (p : Pager) (id : Nat) (image : Bytes) : Pager × Except PagerError Unit :=
  if isValid p id then (storedPut p id image, .ok ())
  else (p, .error .outOfBounds)

/-- `Pager::read` up to the page decode (which no claim needs): validity
check, then the stored image. -/
def readImage (p : Pager) (id : Nat) : Pager × Except PagerError Bytes :=
  if isValid p id then storedGet p id
  else (p, .error .outOfBounds)

/-- `Pager::set_root`. -/
def setRoot (p : Pager) (id : Nat) : Pager × Except PagerError Unit :=
  writeMetadata { p with metadata := { p.metadata with root := id } }

/-- `Pager::flush`: a no-op unless `commit` is set; otherwise every cache
entry is written to the file at `id * PAGE_SIZE` and the cache is emptied. -/
def flush (p : Pager) : Pager :=
  if !p.commit then p
  else
    { p with
      file := p.cache.foldl (fun f e => mapPut f (e.1 * PAGE_SIZE) e.2) p.file,
      cache := [] }

/-- `Pager::open` on a fresh (empty) file: bootstrap via `write_metadata`. -/
def openFresh : Pager :=
  let p : Pager :=
    { cache := [], commit := true,
      metadata := { free_pages := [], pages := 0, root := 0 }, file := [] }
  (writeMetadata p).1

/-! The operations a caller can issue against an open pager, and their
effect on the state (results and errors are discharged to the caller;
an op that fails leaves the state as the source leaves it). -/

inductive Op where
  | allocateOp
  | freeOp (id : Nat)
  | writeOp (id : Nat) (image : Bytes)
  | readOp (id : Nat)
  | flushOp
  | commitOp (b : Bool)
  | setRootOp (id : Nat)
deriving DecidableEq

def exec (p : Pager) : Op → Pager
  | .allocateOp => (allocate p).1
  | .freeOp id => (free p id).1
  | .writeOp id image => (write p id image).1
  | .readOp id => (readImage p id).1
  | .flushOp => flush p
  | .commitOp b => p.setCommit b
  | .setRootOp id => (setRoot p id).1

def run (p : Pager) (ops : List Op) : Pager := ops.foldl exec p

/-- Invariant I6/P4: the free list has no duplicates and only ids below the
page count. -/
def FreeInv (p : Pager) : Prop :=
  p.metadata.free_pages.Nodup ∧ ∀ i ∈ p.metadata.free_pages, i < p.metadata.pages

instance (p : Pager) : Decidable (FreeInv p) := by
  unfold FreeInv; infer_instance

/-! ## The WAL logger (`src/storage/log.rs`)

`Logger` owns the pager, the in-memory entry index, and the log file.  The
log file is modelled by its entries and the write-head position.  Only the
`GlobalCheckpoint` arm of `Logger::log` matters to the claims below; the
row-entry arms apply the mutation through the `btree::BTree` of this era,
which is not part of `src/`. -/

inductive LogEntry where
  | insertE (bytes : Bytes)
  | deleteE (bytes : Bytes)
  | updateE (bytes : Bytes)
  | globalCheckpoint
deriving DecidableEq

structure WalFile where
  entries : List LogEntry
  headPos : Nat
deriving DecidableEq

structure Logger where
  entries : List (Nat × Nat)
  pager : Pager
  wal : WalFile
deriving DecidableEq

/-- `Logger::compact`: enable commit and flush the pager, disable commit
again, clear the entry index, truncate the log file to length zero and
seek to its start. -/
def Logger.compact (lg : Logger) : Logger :=
  let pager := (flush (lg.pager.setCommit true)).setCommit false
  { lg with pager := pager, entries := [], wal := { entries := [], headPos := 0 } }

/-- The `GlobalCheckpoint` arm of `Logger::log`, which immediately returns
`self.compact()`. -/
def Logger.logCheckpoint (lg : Logger) : Logger := lg.compact

/-- The durable-metadata invariant of an open pager: the cached metadata
page (entry 0), when present, is the encoding of the in-memory metadata;
when page 0 is not cached, the file already holds that encoding (every
metadata change goes through `write_metadata`, which recreates the cache
entry).  Holds for `openFresh` and is preserved by every operation. -/
def MetaInv (p : Pager) : Prop :=
  match mapGet p.cache 0 with
  | some b => b = encodeMeta p.metadata
  | none => mapGet p.file 0 = some (encodeMeta p.metadata)

instance (p : Pager) : Decidable (MetaInv p) := by
  unfold MetaInv
  rcases mapGet p.cache 0 <;> infer_instance

/-- Cache keys are pairwise distinct (a `BTreeMap` cannot hold a key
twice); holds for every pager built through `mapPut`. -/
def CacheKeysDistinct (p : Pager) : Prop :=
  (p.cache.map Prod.fst).Nodup

instance (p : Pager) : Decidable (CacheKeysDistinct p) := by
  unfold CacheKeysDistinct; infer_instance

/-- A concrete logger over a freshly opened pager, with a non-empty WAL and
a pending entry index: witness input for the checkpoint theorem. -/
def lgW : Logger :=
  { entries := [(0, 7)],
    pager := (openFresh.setCommit false),
    wal := { entries := [.insertE [7]], headPos := 1 } }

end PagerE

namespace BTreeE

/-! ## Theorems -/

set_option maxRecDepth 1000000
set_option maxHeartbeats 4000000

/-- Results of `Except` computations are comparable (used to discharge
concrete hypotheses by `decide`). -/
def exceptToSum {e a : Type} : Except e a → e ⊕ a
  | .error x => .inl x
  | .ok x => .inr x

instance {e a : Type} [DecidableEq e] [DecidableEq a] : DecidableEq (Except e a) := fun x y =>
  decidable_of_iff (exceptToSum x = exceptToSum y)
    (by cases x <;> cases y <;> simp [exceptToSum])

/-- An `Err` result of the Rust binary search stays inside the searched
window. -/
theorem binSearchGo_err_bounds (l : List Row) (key : Nat) :
    ∀ (fuel lo hi p : Nat), lo ≤ hi →
      binSearchGo l key fuel lo hi = .error p → lo ≤ p ∧ p ≤ hi := by
  intro fuel
  induction fuel with
  | zero =>
    intro lo hi p hlohi h
    simp only [binSearchGo] at h
    cases h
    exact ⟨Nat.le_refl _, hlohi⟩
  | succ fuel ih =>
    intro lo hi p hlohi h
    simp only [binSearchGo] at h
    by_cases hlt : lo < hi
    · rw [if_pos hlt] at h
      cases hget : l[lo + (hi - lo) / 2]? with
      | none =>
        simp only [hget] at h
        cases h
        exact ⟨Nat.le_refl _, hlohi⟩
      | some r =>
        simp only [hget] at h
        by_cases h1 : r.id < key
        · rw [if_pos h1] at h
          have := ih (lo + (hi - lo) / 2 + 1) hi p (by omega) h
          exact ⟨by omega, this.2⟩
        · rw [if_neg h1] at h
          by_cases h2 : key < r.id
          · rw [if_pos h2] at h
            have := ih lo (lo + (hi - lo) / 2) p (by omega) h
            exact ⟨this.1, by omega⟩
          · rw [if_neg h2] at h
            cases h
    · rw [if_neg hlt] at h
      cases h
      exact ⟨Nat.le_refl _, hlohi⟩

theorem binarySearch_err_le {l : List Row} {row : Row} {p : Nat}
    (h : binarySearch l row = .error p) : p ≤ l.length :=
  (binSearchGo_err_bounds l row.id l.length 0 l.length p (Nat.zero_le _) h).2

/-- In a strictly id-sorted list the Rust binary search finds every id that
is present: whenever the searched window still contains an index holding
the key, the search returns a hit. -/
theorem binSearchGo_found (l : List Row) (key : Nat)
    (hsorted : l.Pairwise (fun a b => a.id < b.id)) :
    ∀ (fuel lo hi : Nat), hi - lo ≤ fuel → hi ≤ l.length →
      (∃ j r, lo ≤ j ∧ j < hi ∧ l[j]? = some r ∧ r.id = key) →
      ∃ p, binSearchGo l key fuel lo hi = .ok p := by
  have hmono : ∀ (i j : Nat) (ri rj : Row), i < j → l[i]? = some ri → l[j]? = some rj →
      ri.id < rj.id := by
    intro i j ri rj hij hi hj
    have hjlen : j < l.length := by
      by_contra hc
      rw [List.getElem?_eq_none (by omega)] at hj
      cases hj
    have hilen : i < l.length := by omega
    rw [List.getElem?_eq_getElem hilen] at hi
    rw [List.getElem?_eq_getElem hjlen] at hj
    cases hi
    cases hj
    exact List.pairwise_iff_getElem.mp hsorted i j hilen hjlen hij
  intro fuel
  induction fuel with
  | zero =>
    intro lo hi hfuel _ hwit
    obtain ⟨j, r, hjlo, hjhi, _, _⟩ := hwit
    omega
  | succ fuel ih =>
    intro lo hi hfuel hhi hwit
    obtain ⟨j, rj, hjlo, hjhi, hjget, hjkey⟩ := hwit
    have hlt : lo < hi := by omega
    have hmidlt : lo + (hi - lo) / 2 < hi := by omega
    have hmidlen : lo + (hi - lo) / 2 < l.length := by omega
    have hget : l[lo + (hi - lo) / 2]? = some (l[lo + (hi - lo) / 2]) :=
      List.getElem?_eq_getElem hmidlen
    simp only [binSearchGo, if_pos hlt, hget]
    by_cases h1 : (l[lo + (hi - lo) / 2]).id < key
    · rw [if_pos h1]
      refine ih (lo + (hi - lo) / 2 + 1) hi (by omega) hhi ?_
      refine ⟨j, rj, ?_, hjhi, hjget, hjkey⟩
      rcases Nat.lt_or_ge (lo + (hi - lo) / 2) j with hj1 | hj2
      · omega
      · exfalso
        rcases Nat.lt_or_ge j (lo + (hi - lo) / 2) with hj3 | hj4
        · have := hmono j (lo + (hi - lo) / 2) rj (l[lo + (hi - lo) / 2]) hj3 hjget hget
          omega
        · have : j = lo + (hi - lo) / 2 := by omega
          subst this
          rw [hget] at hjget
          cases hjget
          omega
    · rw [if_neg h1]
      by_cases h2 : key < (l[lo + (hi - lo) / 2]).id
      · rw [if_pos h2]
        refine ih lo (lo + (hi - lo) / 2) (by omega) (by omega) ?_
        refine ⟨j, rj, hjlo, ?_, hjget, hjkey⟩
        rcases Nat.lt_or_ge j (lo + (hi - lo) / 2) with hj1 | hj2
        · omega
        · exfalso
          rcases Nat.lt_or_ge (lo + (hi - lo) / 2) j with hj3 | hj4
          · have := hmono (lo + (hi - lo) / 2) j (l[lo + (hi - lo) / 2]) rj hj3 hget hjget
            omega
          · have : j = lo + (hi - lo) / 2 := by omega
            subst this
            rw [hget] at hjget
            cases hjget
            omega
      · rw [if_neg h2]
        exact ⟨lo + (hi - lo) / 2, rfl⟩

/-- In a strictly id-sorted list, a row whose id occurs in the list is
found by `binary_search`. -/
theorem binarySearch_found {l : List Row} {row : Row}
    (hsorted : l.Pairwise (fun a b => a.id < b.id))
    (hmem : row.id ∈ l.map Row.id) :
    ∃ p, binarySearch l row = .ok p := by
  obtain ⟨r, hr, hrid⟩ := List.mem_map.mp hmem
  obtain ⟨j, hj, hget⟩ := List.getElem_of_mem hr
  refine binSearchGo_found l row.id hsorted l.length 0 l.length (Nat.le_refl _)
    (Nat.le_refl _) ⟨j, r, Nat.zero_le _, hj, ?_, hrid⟩
  rw [List.getElem?_eq_getElem hj, hget]

/-- C1.  The claim fails on the code: inserting a row with id 39 into
`stShared` — a storage of exactly the shape `split_child` leaves behind
after an internal page splits (the promoted separator key stays in the
right half, so the boundary leaf `pageC2` is reachable from both halves) —
succeeds, and `select()` afterwards returns the ids with 39 ordered before
32: not sorted, violating "sorted in strictly increasing order by id". -/
theorem select_unsorted_after_internal_split :
    (btInsert stShared (leafRow 39)).2 = .ok () ∧
    btSelectIds (btInsert stShared (leafRow 39)).1 =
      some [10, 15, 20, 30, 39, 32, 34, 36, 38, 40, 50] ∧
    btSelectIds stShared = some [10, 15, 20, 30, 32, 34, 36, 38, 40, 50] ∧
    isStrictSorted [10, 15, 20, 30, 39, 32, 34, 36, 38, 40, 50] = false :=
  ⟨rfl, rfl, rfl, by decide⟩

/-- C2, counterexample.  `stC2` is the storage reached from a fresh open by
inserting ids 1, 2, 3 (first conjunct); its single leaf is full.  Inserting
a row with the duplicate id 2 surfaces the `Duplicate` page error, but only
after the `Full` branch has already split the tree: the root moves to the
freshly created (and, because the separator insert never happens, empty)
internal page, so the tree state is modified — the claim's "leaves the tree
state unchanged" fails. -/
theorem duplicate_insert_into_full_leaf_mutates :
    (insertAll freshBT [1, 2, 3]).1 = stC2 ∧
    (insertAll freshBT [1, 2, 3]).2 = true ∧
    (btInsert stC2 (leafRow 2)).2 = .error (.page .insert .duplicate) ∧
    (btInsert stC2 (leafRow 2)).1.root = 8192 ∧
    stC2.root = 4096 ∧
    (btInsert stC2 (leafRow 2)).1.pages = 3 ∧
    stC2.pages = 1 :=
  ⟨rfl, rfl, rfl, rfl, rfl, rfl, rfl⟩

/-- Helper: the 169-insert fold evaluated in thirteen 13-insert stages. -/
theorem foldBig_chunk0 : (List.range' 0 13).foldl insStep emptyInternalPage = bigPage 13 := rfl

theorem foldBig_chunk1 : (List.range' 13 13).foldl insStep (bigPage 13) = bigPage 26 := rfl

theorem foldBig_chunk2 : (List.range' 26 13).foldl insStep (bigPage 26) = bigPage 39 := rfl

theorem foldBig_chunk3 : (List.range' 39 13).foldl insStep (bigPage 39) = bigPage 52 := rfl

theorem foldBig_chunk4 : (List.range' 52 13).foldl insStep (bigPage 52) = bigPage 65 := rfl

theorem foldBig_chunk5 : (List.range' 65 13).foldl insStep (bigPage 65) = bigPage 78 := rfl

theorem foldBig_chunk6 : (List.range' 78 13).foldl insStep (bigPage 78) = bigPage 91 := rfl

theorem foldBig_chunk7 : (List.range' 91 13).foldl insStep (bigPage 91) = bigPage 104 := rfl

theorem foldBig_chunk8 : (List.range' 104 13).foldl insStep (bigPage 104) = bigPage 117 := rfl

theorem foldBig_chunk9 : (List.range' 117 13).foldl insStep (bigPage 117) = bigPage 130 := rfl

theorem foldBig_chunk10 : (List.range' 130 13).foldl insStep (bigPage 130) = bigPage 143 := rfl

theorem foldBig_chunk11 : (List.range' 143 13).foldl insStep (bigPage 143) = bigPage 156 := rfl

theorem foldBig_chunk12 : (List.range' 156 13).foldl insStep (bigPage 156) = bigPage 169 := rfl

/-- Helper: `foldBig` indeed produces `bigInternal`. -/
theorem foldBig_eq : foldBig = bigInternal := by
  have hsplit : List.range 169 =
      List.range' 0 13 ++ (List.range' 13 13 ++ (List.range' 26 13 ++ (List.range' 39 13 ++
      (List.range' 52 13 ++ (List.range' 65 13 ++ (List.range' 78 13 ++ (List.range' 91 13 ++
      (List.range' 104 13 ++ (List.range' 117 13 ++ (List.range' 130 13 ++ (List.range' 143 13 ++
      List.range' 156 13))))))))))) := by decide
  show (List.range 169).foldl insStep emptyInternalPage = bigInternal
  rw [hsplit]
  simp only [List.foldl_append]
  rw [foldBig_chunk0, foldBig_chunk1, foldBig_chunk2, foldBig_chunk3, foldBig_chunk4, foldBig_chunk5, foldBig_chunk6, foldBig_chunk7, foldBig_chunk8, foldBig_chunk9, foldBig_chunk10, foldBig_chunk11, foldBig_chunk12]
  decide

/-- C3, counterexample.  `bigInternal` is the internal page built by 169
ascending separator inserts (`foldBig`), with `cells = 4056` used bytes of
the `PAGE_SIZE − PAGE_HEADER_SIZE = 4071` byte body budget.  A further
24-byte separator exceeds the remaining body space (24 > 4071 − 4056), so
the claim demands `Full`; the code's check `cells + size >= PAGE_SIZE`
(4080 < 4096) accepts it. -/
theorem full_check_ignores_header :
    foldBig = bigInternal ∧
    bigInternal.insert (internalRow 170 170 171) =
      .ok { kind := some (.internal (bigRows ++ [internalRow 170 170 171])), id := 0,
            offset := 4096, parent := 0, cells := 4080 } ∧
    PAGE_SIZE - PAGE_HEADER_SIZE < bigInternal.cells + (internalRow 170 170 171).size :=
  ⟨foldBig_eq, rfl, by decide⟩

/-- C3, amended.  Page-level insert fails with `Full` exactly when the
row's serialized size reaches the remaining space of the full
`PAGE_SIZE = 4096` byte budget (`cells + size ≥ PAGE_SIZE`, the header not
subtracted); otherwise capacity is not a reason for rejection (the outcome
is success or `Duplicate`). -/
theorem full_iff_page_budget (p : Page) (row : Row) (k : PageKind)
    (hk : p.kind = some k) :
    p.insert row = .error (.page .insert .full) ↔ PAGE_SIZE ≤ p.cells + row.size := by
  constructor
  · intro h
    by_contra hcap
    cases k with
    | internal offsets =>
      revert h
      simp only [Page.insert, cellTaskInsert, hk, if_neg hcap]
      cases hbs : binInsertTask offsets row with
      | error e =>
        have : e = .page .insert .duplicate := by
          revert hbs
          unfold binInsertTask
          cases binarySearch offsets row <;> simp_all
        simp [this]
      | ok pr => simp
    | leaf rows =>
      revert h
      simp only [Page.insert, cellTaskInsert, hk, if_neg hcap]
      cases hbs : binInsertTask rows row with
      | error e =>
        have : e = .page .insert .duplicate := by
          revert hbs
          unfold binInsertTask
          cases binarySearch rows row <;> simp_all
        simp [this]
      | ok pr => simp
  · intro h
    cases k with
    | internal offsets => simp [Page.insert, cellTaskInsert, hk, if_pos h]
    | leaf rows => simp [Page.insert, cellTaskInsert, hk, if_pos h]

/-- C3, witness for the amended theorem: the full leaf of `stC2` rejects a
fourth 1156-byte row with `Full`, and both sides of the equivalence hold. -/
theorem full_iff_page_budget_witness :
    leafPage123.insert (leafRow 4) = .error (.page .insert .full) ↔
      PAGE_SIZE ≤ leafPage123.cells + (leafRow 4).size :=
  full_iff_page_budget leafPage123 (leafRow 4) (.leaf [leafRow 1, leafRow 2, leafRow 3]) rfl

/-- C10.  The capacity check of `cell_task` runs before the duplicate
binary search for both page kinds, so a row whose size overflows the page
reports `Full` even when a row with the same id is already present, on
leaf and internal pages alike. -/
theorem full_takes_precedence_over_duplicate (p : Page) (row : Row) (items : List Row)
    (hk : p.kind = some (.leaf items) ∨ p.kind = some (.internal items))
    (hcap : PAGE_SIZE ≤ p.cells + row.size)
    (_hdup : row.id ∈ items.map Row.id) :
    p.insert row = .error (.page .insert .full) := by
  cases hk with
  | inl h => simp [Page.insert, cellTaskInsert, h, if_pos hcap]
  | inr h => simp [Page.insert, cellTaskInsert, h, if_pos hcap]

/-- C10, witness: the full leaf of `stC2` already holds id 2 and reports
`Full` for another id-2 row, and an over-full internal page already holding
separator id 1 reports `Full` for another id-1 separator. -/
theorem full_takes_precedence_over_duplicate_witness :
    leafPage123.insert (leafRow 2) = .error (.page .insert .full) ∧
    ({ kind := some (.internal [internalRow 1 1 2]), id := 0, offset := 4096,
       parent := 0, cells := 4090 } : Page).insert (internalRow 1 1 2) =
      .error (.page .insert .full) :=
  ⟨full_takes_precedence_over_duplicate leafPage123 (leafRow 2)
      [leafRow 1, leafRow 2, leafRow 3] (Or.inl rfl) (by decide) (by decide),
    full_takes_precedence_over_duplicate
      { kind := some (.internal [internalRow 1 1 2]), id := 0, offset := 4096,
        parent := 0, cells := 4090 } (internalRow 1 1 2) [internalRow 1 1 2]
      (Or.inr rfl) (by decide) (by decide)⟩

/-- C4.  `search_internal` against an internal page with separator list
`pointers`: an exact binary-search hit at `p` descends into
`pointers[p].right` (pushing breadcrumb `(current, p)`); a miss with
insertion point `p` chooses `pointers[p]` when `p < n` and `pointers[p−1]`
otherwise, descending into its `left` child when `pointer.id ≥ row.id` and
its `right` child otherwise. -/
theorem search_internal_descent (st : BT) (row : Row) (page : Page) (pointers : List Row)
    (hpage : pageAt st st.current = .ok page)
    (hkind : page.kind = some (.internal pointers)) :
    (∀ p ptr, binarySearch pointers row = .ok p → pointers[p]? = some ptr →
      searchInternal st row =
        ({ st with breadcrumbs := st.breadcrumbs ++ [(st.current, p)],
                   current := ptr.right }, .ok ())) ∧
    (∀ p ptr, binarySearch pointers row = .error p →
      pointers[if p < pointers.length then p else p - 1]? = some ptr →
      searchInternal st row =
        ({ st with
             breadcrumbs :=
               st.breadcrumbs ++ [(st.current, if p < pointers.length then p else p - 1)],
             current := if row.id ≤ ptr.id then ptr.left else ptr.right }, .ok ())) := by
  constructor
  · intro p ptr hbs hget
    simp [searchInternal, hpage, hkind, hbs, hget]
  · intro p ptr hbs hget
    by_cases hlt : p < pointers.length
    · have hne : (p == pointers.length) = false := by
        simp [Nat.ne_of_lt hlt]
      simp only [if_pos hlt] at hget
      simp [searchInternal, hpage, hkind, hbs, hne, hget, if_pos hlt]
    · have hge : pointers.length ≤ p := Nat.le_of_not_lt hlt
      have hp : p = pointers.length := by
        have : p ≤ pointers.length := by
          exact @binarySearch_err_le pointers row p hbs
        omega
      subst hp
      have heq : (pointers.length == pointers.length) = true := by simp
      simp only [if_neg hlt] at hget
      simp [searchInternal, hpage, hkind, hbs, heq, hget, if_neg hlt]

/-- C4, witness: in the two-separator tree `stW`, searching for id 4 misses
at insertion point 1, chooses the separator `(5, 8192, 12288)`, and
descends into its left child 8192. -/
theorem search_internal_descent_witness :
    searchInternal stW (leafRow 4) =
      ({ stW with breadcrumbs := stW.breadcrumbs ++ [(stW.current, 1)],
                  current := 8192 }, .ok ()) := by
  have h := search_internal_descent stW (leafRow 4) wRoot
    [internalRow 3 4096 8192, internalRow 5 8192 12288] (by decide) rfl
  have h2 := h.2 1 (internalRow 5 8192 12288) (by decide) (by decide)
  simpa using h2

/-- C5, counterexample.  Splitting the full leaf of `stC2`
(`rows = [1, 2, 3]`, reached from a fresh open — see
`duplicate_insert_into_full_leaf_mutates`) on the insert of id 4: the claim
demands split point `m = |rows| / 2 = 1`, a sibling holding ids 2 and 3
(then the trigger 4) and a separator with id 2; the code splits at the
fixed `LEAF_SPLITAT = 2`, the sibling receives only `[3]` (then 4), and the
separator id is 3. -/
theorem split_point_is_constant_not_half :
    (btInsert stC2 (leafRow 4)).2 = .ok () ∧
    (btInsert stC2 (leafRow 4)).1.root = 8192 ∧
    diskLookup (btInsert stC2 (leafRow 4)).1.disk 8192 =
      some { kind := some (.internal [internalRow 3 4096 12288]), id := 1, offset := 8192,
             parent := 8192, cells := 24 } ∧
    pageIdsAt (btInsert stC2 (leafRow 4)).1 12288 = some [3, 4] ∧
    pageIdsAt (btInsert stC2 (leafRow 4)).1 4096 = some [1, 2] ∧
    [leafRow 1, leafRow 2, leafRow 3].length / 2 = 1 ∧
    ([leafRow 1, leafRow 2, leafRow 3].drop 1).map Row.id = [2, 3] ∧
    (3 : Nat) ≠ 2 :=
  ⟨rfl, rfl, rfl, rfl, rfl, rfl, rfl, by decide⟩

/-- Helper: `search_internal` only moves `current` and pushes a breadcrumb;
the file, page count and root are untouched. -/
theorem searchInternal_fields (st : BT) (row : Row) :
    (searchInternal st row).1.disk = st.disk ∧ (searchInternal st row).1.root = st.root ∧
    (searchInternal st row).1.pages = st.pages := by
  unfold searchInternal
  repeat' split
  all_goals exact ⟨rfl, rfl, rfl⟩

/-- Helper: the descent prefix of the insert loop never writes: disk, root
and page count are those of the starting state. -/
theorem locateLoop_fields (fuel : Nat) :
    ∀ (st : BT) (row : Row),
      (locateLoop fuel st row).1.disk = st.disk ∧
      (locateLoop fuel st row).1.root = st.root ∧
      (locateLoop fuel st row).1.pages = st.pages := by
  induction fuel with
  | zero => intro st row; exact ⟨rfl, rfl, rfl⟩
  | succ fuel ih =>
    intro st row
    unfold locateLoop
    split
    · exact ⟨rfl, rfl, rfl⟩
    · split
      · exact ⟨rfl, rfl, rfl⟩
      · split
        · next st3 e heq =>
            have h1 := searchInternal_fields st row
            rw [heq] at h1
            exact h1
        · next st3 heq =>
            have h1 := searchInternal_fields st row
            rw [heq] at h1
            have h2 := ih st3 row
            exact ⟨h2.1.trans h1.1, h2.2.1.trans h1.2.1, h2.2.2.trans h1.2.2⟩
      · exact ⟨rfl, rfl, rfl⟩

/-- Helper: when the descent reaches a leaf, the insert loop is that same
descent followed by the page-level insert at the reached leaf (with the
`Full` → split and error-wrapping continuations of the source). -/
theorem insertLoop_of_locate (fuel : Nat) :
    ∀ (st st2 : BT) (row : Row), locateLoop fuel st row = (st2, .ok ()) →
      insertLoop fuel st row =
        match readDisk st2 st2.current with
        | .error e => (st2, .error e)
        | .ok page =>
          match page.insert row with
          | .ok page => (writeBack st2 page, .ok ())
          | .error (.page _ .full) => split (st2.pages + 2) st2 page row
          | .error (.page a c) => (st2, .error (.storage .insert (.wrapped a c)))
          | .error e => (st2, .error e) := by
  induction fuel with
  | zero =>
    intro st st2 row h
    unfold locateLoop at h
    simp at h
  | succ fuel ih =>
    intro st st2 row h
    unfold locateLoop at h
    unfold insertLoop
    split at h
    · simp at h
    · split at h
      · simp at h
      · split at h
        · simp at h
        · next st3 heq3 => exact ih st3 st2 row h
      · have h2 : st = st2 := congrArg Prod.fst h
        subst h2
        rfl

/-- C2, amended.  Inserting a duplicate key into a tree whose located leaf
is sorted and has room for the row fails with the wrapped `Duplicate` page
error, and the file, root and page count after the failed insert are those
before it (the state differs from the input only in the descent cursor
`current` and `breadcrumbs`). -/
theorem duplicate_insert_leaves_tree_unchanged (st st2 : BT) (row : Row)
    (L : Page) (rows : List Row)
    (hloc : btLocate st row = (st2, .ok ()))
    (hread : readDisk st2 st2.current = .ok L)
    (hkind : L.kind = some (.leaf rows))
    (hsorted : rows.Pairwise (fun a b => a.id < b.id))
    (hmem : row.id ∈ rows.map Row.id)
    (hroom : L.cells + row.size < PAGE_SIZE) :
    btInsert st row = (st2, .error (.storage .insert (.wrapped .insert .duplicate))) ∧
    st2.disk = st.disk ∧ st2.root = st.root ∧ st2.pages = st.pages := by
  have hloc2 : locateLoop (st.pages + 2) { st with current := st.root } row =
      (st2, .ok ()) := hloc
  have hfields := locateLoop_fields (st.pages + 2) { st with current := st.root } row
  rw [hloc2] at hfields
  have hrun := insertLoop_of_locate (st.pages + 2) { st with current := st.root } st2 row hloc2
  obtain ⟨p, hp⟩ := binarySearch_found hsorted hmem
  have hins : Page.insert L row = .error (.page .insert .duplicate) := by
    unfold Page.insert cellTaskInsert
    simp only [hkind]
    rw [if_neg (by omega : ¬ PAGE_SIZE ≤ L.cells + row.size)]
    unfold binInsertTask
    rw [hp]
  refine ⟨?_, hfields.1, hfields.2.1, hfields.2.2⟩
  show insertLoop (st.pages + 2) { st with current := st.root } row = _
  rw [hrun]
  simp only [hread, hins]

theorem duplicate_insert_leaves_tree_unchanged_witness :
    btInsert stW (leafRow 3) =
      ({ stW with current := 8192, breadcrumbs := [(16384, 0)] },
        .error (.storage .insert (.wrapped .insert .duplicate))) ∧
    ({ stW with current := 8192, breadcrumbs := [(16384, 0)] } : BT).disk = stW.disk ∧
    ({ stW with current := 8192, breadcrumbs := [(16384, 0)] } : BT).root = stW.root ∧
    ({ stW with current := 8192, breadcrumbs := [(16384, 0)] } : BT).pages = stW.pages :=
  duplicate_insert_leaves_tree_unchanged stW
    { stW with current := 8192, breadcrumbs := [(16384, 0)] } (leafRow 3) wLeafB
    [leafRow 3, leafRow 4]
    (by decide) (by decide) (by decide) (by decide) (by decide) (by decide)

/-- C5, amended.  `split_child` on a leaf page holding `candidates` splits
at the fixed index `LEAF_SPLITAT = 2`: the page keeps
`candidates.take LEAF_SPLITAT` (with cell count set to the row count), a
sibling is created at the next fresh offset holding
`candidates.drop LEAF_SPLITAT`, the returned separator carries the first
key of the dropped half with the page and sibling as children, and the
trigger row is inserted into the sibling when the separator key is `≤` its
id, into the page otherwise. -/
theorem split_child_leaf (st : BT) (target : Page) (row : Row) (candidates : List Row)
    (rightHead : Row) (parent : Page)
    (hkind : target.kind = some (.leaf candidates))
    (hlen : ¬ candidates.length < LEAF_SPLITAT)
    (hpar : readDisk st target.parent = .ok parent)
    (hhead : (candidates.drop LEAF_SPLITAT).head? = some rightHead) :
    splitChild st target row =
      (let newOffset := st.pages * PAGE_SIZE + PAGE_SIZE
       let newPage := Page.new newOffset st.pages (.leaf (candidates.drop LEAF_SPLITAT))
         (candidates.drop LEAF_SPLITAT).length target.parent
       let left := { target with
                     kind := some (.leaf (candidates.take LEAF_SPLITAT)),
                     cells := (candidates.take LEAF_SPLITAT).length }
       let st1 : BT := { writeBack st newPage with pages := st.pages + 1 }
       let pointer := internalRow rightHead.id target.offset newOffset
       if rightHead.id ≤ row.id then
         match newPage.insert row with
         | .error e => (st1, .error e)
         | .ok right2 =>
           (writeBack (writeBack (writeBack st1 parent) left) right2, .ok pointer)
       else
         match left.insert row with
         | .error e => (st1, .error e)
         | .ok left2 =>
           (writeBack (writeBack (writeBack st1 parent) left2) newPage, .ok pointer)) := by
  unfold splitChild
  simp only [hpar, Page.selectRows, hkind, Page.leafB, if_true]
  rw [if_neg hlen]
  simp only [hhead, create, readDisk, writeBack, diskStore, diskLookup, if_pos, Page.new]

theorem split_child_leaf_witness :
    splitChild stMid tgtMid (leafRow 4) =
      ({ disk := [(12288, { kind := some (.leaf [leafRow 3, leafRow 4]), id := 2,
                            offset := 12288, parent := 8192, cells := 1157 }),
                  (4096, { kind := some (.leaf [leafRow 1, leafRow 2]), id := 0,
                           offset := 4096, parent := 8192, cells := 2 }),
                  (8192, Page.new 8192 1 (.internal []) 0 4096)],
         pages := 3, root := 8192, current := 4096, breadcrumbs := [] },
        .ok (internalRow 3 4096 12288)) := by
  rw [split_child_leaf stMid tgtMid (leafRow 4) [leafRow 1, leafRow 2, leafRow 3]
    (leafRow 3) (Page.new 8192 1 (.internal []) 0 4096)
    (by decide) (by decide) (by decide) (by decide)]
  decide

end BTreeE

namespace RowE

/-- C9, counterexample.  Calling `left_offset` on a leaf row executes
`panic!` — the program terminates; the call does not return an error value
(no `KindMismatch` variant exists in the error enum of `mod.rs`), so the
claim that the accessor "returns an error value rather than terminating the
program" fails already at this input.  Likewise for `username` on an
internal row. -/
theorem accessor_panics_at_leaf_row :
    Row.left_offset (Row.new 0 .leaf) =
      .panicked "left_offset() called on a non-internal row" ∧
    isErrorValue (Row.left_offset (Row.new 0 .leaf)) = false ∧
    Row.username (Row.new 0 .internal) =
      .panicked "username() called on a non-leaf row" ∧
    isErrorValue (Row.username (Row.new 0 .internal)) = false :=
  ⟨rfl, rfl, rfl, rfl⟩

/-- C9, amended.  For every leaf row the `left_offset`/`right_offset`
accessors panic (terminating the program with a kind-mismatch message),
and for every internal row the `username`/`email` accessors panic the same
way; no accessor returns an error value. -/
theorem accessors_panic_on_kind_mismatch (r : Row) :
    (r.typeField = .leaf →
      r.left_offset = .panicked "left_offset() called on a non-internal row" ∧
      r.right_offset = .panicked "right_offset() called on a non-internal row") ∧
    (r.typeField = .internal →
      r.username = .panicked "username() called on a non-leaf row" ∧
      r.email = .panicked "email() called on a non-leaf row") := by
  constructor
  · intro h
    constructor <;> simp [Row.left_offset, Row.right_offset, h]
  · intro h
    constructor <;> simp [Row.username, Row.email, h]

/-- C9, witness for the amended theorem at concrete rows of each kind. -/
theorem accessors_panic_on_kind_mismatch_witness :
    (Row.new 5 .leaf).left_offset =
      .panicked "left_offset() called on a non-internal row" ∧
    (Row.new 5 .internal).username =
      .panicked "username() called on a non-leaf row" :=
  ⟨((accessors_panic_on_kind_mismatch (Row.new 5 .leaf)).1 rfl).1,
   ((accessors_panic_on_kind_mismatch (Row.new 5 .internal)).2 rfl).1⟩

end RowE

namespace PagerE

set_option maxRecDepth 1000000
set_option maxHeartbeats 4000000

/-- C7.  With the commit flag cleared, `Pager::flush` returns immediately:
the pager state — its cache, its metadata and the durable file contents —
is unchanged. -/
theorem flush_noop_without_commit (p : Pager) (h : p.commit = false) : flush p = p := by
  simp [flush, h]

/-- C7, witness: flushing a freshly opened pager whose commit flag was
cleared changes nothing. -/
theorem flush_noop_without_commit_witness :
    flush (openFresh.setCommit false) = openFresh.setCommit false :=
  flush_noop_without_commit (openFresh.setCommit false) rfl

/-- C8, counterexample.  From a fresh pager, allocate page 2, then free it
twice: `Pager::free` never checks membership, so the free list ends up
holding the id 2 twice — the claimed no-duplicates invariant fails under
this operation sequence. -/
theorem double_free_duplicates_free_list :
    (run openFresh [.allocateOp, .freeOp 2, .freeOp 2]).metadata.free_pages = [2, 2] ∧
    ¬ (run openFresh [.allocateOp, .freeOp 2, .freeOp 2]).metadata.free_pages.Nodup :=
  ⟨rfl, by decide⟩

/-- `mapPut` then `mapGet`. -/
theorem mapGet_mapPut (m : List (Nat × Bytes)) (k : Nat) (v : Bytes) (k2 : Nat) :
    mapGet (mapPut m k v) k2 = if k2 = k then some v else mapGet m k2 := by
  induction m with
  | nil =>
    by_cases h : k2 = k
    · subst h; simp [mapPut, mapGet]
    · have hk : k ≠ k2 := fun hh => h hh.symm
      simp [mapPut, mapGet, hk, h]
  | cons e rest ih =>
    simp only [mapPut]
    by_cases h1 : k < e.1
    · rw [if_pos h1]
      by_cases h : k2 = k
      · subst h; simp [mapGet]
      · have hk : k ≠ k2 := fun hh => h hh.symm
        simp [mapGet, hk, h]
    · rw [if_neg h1]
      by_cases h2 : k = e.1
      · rw [if_pos h2]
        by_cases h : k2 = k
        · subst h; simp [mapGet]
        · have hk : k ≠ k2 := fun hh => h hh.symm
          have he : e.1 ≠ k2 := by
            rw [← h2]; exact hk
          simp [mapGet, hk, h, he]
      · rw [if_neg h2]
        by_cases he : e.1 = k2
        · have hne : k2 ≠ k := by
            intro hh
            exact h2 (by rw [← hh, he])
          simp [mapGet, he, hne]
        · simp [mapGet, he, ih]

/-- A key present in the map is found. -/
theorem mapGet_ne_none_of_mem (m : List (Nat × Bytes)) (e : Nat × Bytes)
    (he : e ∈ m) : mapGet m e.1 ≠ none := by
  induction m with
  | nil => cases he
  | cons x rest ih =>
    cases List.mem_cons.mp he with
    | inl hex =>
      subst hex
      simp [mapGet]
    | inr hrest =>
      by_cases hx : x.1 = e.1
      · simp [mapGet, hx]
      · simp only [mapGet, hx, if_false]
        exact ih hrest

/-- A fold of `mapPut` writes over keys all different from `k2` leaves the
entry at `k2` unchanged. -/
theorem mapGet_foldPut_untouched (cache : List (Nat × Bytes)) (file : List (Nat × Bytes))
    (k2 : Nat) (h : ∀ e ∈ cache, e.1 * PAGE_SIZE ≠ k2) :
    mapGet (cache.foldl (fun f e => mapPut f (e.1 * PAGE_SIZE) e.2) file) k2 =
      mapGet file k2 := by
  induction cache generalizing file with
  | nil => rfl
  | cons e rest ih =>
    simp only [List.foldl_cons]
    rw [ih _ (fun x hx => h x (List.mem_cons_of_mem _ hx))]
    rw [mapGet_mapPut]
    rw [if_neg (fun hc => h e (List.mem_cons_self _ _) hc.symm)]

/-- Every cache entry survives the flush fold into the file, provided cache
keys are pairwise distinct. -/
theorem mapGet_foldPut_member (cache : List (Nat × Bytes)) (file : List (Nat × Bytes))
    (hkeys : (cache.map Prod.fst).Nodup) (id : Nat) (b : Bytes)
    (h : mapGet cache id = some b) :
    mapGet (cache.foldl (fun f e => mapPut f (e.1 * PAGE_SIZE) e.2) file)
      (id * PAGE_SIZE) = some b := by
  induction cache generalizing file with
  | nil => simp [mapGet] at h
  | cons e rest ih =>
    simp only [List.map_cons, List.nodup_cons] at hkeys
    by_cases he : e.1 = id
    · rw [show mapGet (e :: rest) id = some e.2 by simp [mapGet, he]] at h
      cases h
      simp only [List.foldl_cons]
      rw [mapGet_foldPut_untouched]
      · rw [he, mapGet_mapPut, if_pos rfl]
      · intro x hx hc
        have hx1 : x.1 = e.1 := by
          rw [he]
          exact Nat.eq_of_mul_eq_mul_right (by norm_num [PAGE_SIZE]) hc
        exact hkeys.1 (hx1 ▸ List.mem_map_of_mem Prod.fst hx)
    · rw [show mapGet (e :: rest) id = mapGet rest id by simp [mapGet, he]] at h
      simp only [List.foldl_cons]
      exact ih _ hkeys.2 h

/-- C6.  After a `GlobalCheckpoint` entry is logged, the WAL file has
length 0 with the write head at the start, every cached (dirty) page image
has been written to the database file at its page offset, the file holds
the current metadata encoding at the metadata page, the cache is empty and
the commit flag is cleared again. -/
theorem checkpoint_truncates_and_flushes (lg : Logger)
    (hmeta : MetaInv lg.pager) (hkeys : CacheKeysDistinct lg.pager) :
    (lg.logCheckpoint).wal.entries.length = 0 ∧
    (lg.logCheckpoint).wal.headPos = 0 ∧
    (∀ id b, mapGet lg.pager.cache id = some b →
      mapGet (lg.logCheckpoint).pager.file (id * PAGE_SIZE) = some b) ∧
    mapGet (lg.logCheckpoint).pager.file 0 =
      some (encodeMeta (lg.logCheckpoint).pager.metadata) ∧
    (lg.logCheckpoint).pager.cache = [] ∧
    (lg.logCheckpoint).pager.commit = false := by
  have hfile : (lg.logCheckpoint).pager.file =
      lg.pager.cache.foldl (fun f e => mapPut f (e.1 * PAGE_SIZE) e.2) lg.pager.file := by
    simp [Logger.logCheckpoint, Logger.compact, flush, Pager.setCommit]
  have hmetaeq : (lg.logCheckpoint).pager.metadata = lg.pager.metadata := by
    simp [Logger.logCheckpoint, Logger.compact, flush, Pager.setCommit]
  refine ⟨rfl, rfl, ?_, ?_, ?_, ?_⟩
  · intro id b h
    rw [hfile]
    exact mapGet_foldPut_member _ _ hkeys id b h
  · rw [hfile, hmetaeq]
    unfold MetaInv at hmeta
    cases hc : mapGet lg.pager.cache 0 with
    | some b =>
      rw [hc] at hmeta
      subst hmeta
      have := mapGet_foldPut_member lg.pager.cache lg.pager.file hkeys 0 _ hc
      simpa using this
    | none =>
      rw [hc] at hmeta
      rw [mapGet_foldPut_untouched]
      · exact hmeta
      · intro e he hce
        -- key 0 is not in the cache (the metadata lookup missed), so no
        -- fold write can land on file offset 0
        have hne0 : e.1 ≠ 0 := by
          intro hz
          exact (hz ▸ mapGet_ne_none_of_mem lg.pager.cache e he) hc
        have : 0 < e.1 * PAGE_SIZE :=
          Nat.mul_pos (Nat.pos_of_ne_zero hne0) (by norm_num [PAGE_SIZE])
        omega
  · simp [Logger.logCheckpoint, Logger.compact, flush, Pager.setCommit]
  · simp [Logger.logCheckpoint, Logger.compact, flush, Pager.setCommit]

/-- C6, witness: a logger over a freshly opened pager (commit off, pending
WAL entries) checkpointed: the WAL empties, the head rewinds, the cached
metadata and root-leaf images land in the file. -/
theorem checkpoint_truncates_and_flushes_witness :
    (lgW.logCheckpoint).wal.entries.length = 0 ∧
    (lgW.logCheckpoint).wal.headPos = 0 ∧
    (∀ id b, mapGet lgW.pager.cache id = some b →
      mapGet (lgW.logCheckpoint).pager.file (id * PAGE_SIZE) = some b) ∧
    mapGet (lgW.logCheckpoint).pager.file 0 =
      some (encodeMeta (lgW.logCheckpoint).pager.metadata) ∧
    (lgW.logCheckpoint).pager.cache = [] ∧
    (lgW.logCheckpoint).pager.commit = false :=
  checkpoint_truncates_and_flushes lgW (by decide) (by decide)

theorem writeMetadataF_plain (q : Pager) (fuel : Nat) (hq : q.metadata.pages ≠ 0) :
    writeMetadataF (fuel + 1) q = (storedPut q 0 (encodeMeta q.metadata), .ok ()) := by
  unfold writeMetadataF
  simp [hq]

/-- C8, amended.  The free-list invariant — no duplicates, every id below
the page count — holds for a freshly opened pager and is preserved by every
pager operation, with one proviso forced by the counterexample: a `free` of
an id that is already on the free list (a double free) re-appends it.  Under
the proviso that `free` is only applied to ids not currently on the free
list, every operation preserves the invariant. -/
theorem free_list_invariant_preserved :
    FreeInv openFresh ∧
    ∀ (p : Pager) (op : Op), FreeInv p →
      (∀ id, op = Op.freeOp id → id ∉ p.metadata.free_pages) →
      FreeInv (exec p op) := by
  constructor
  · decide
  · intro p op hinv hfresh
    cases op with
    | allocateOp =>
      show FreeInv (allocateF 3 p).1
      unfold allocateF
      cases hlast : p.metadata.free_pages.getLast? with
      | some id =>
        have hmem : id ∈ p.metadata.free_pages := by
          obtain ⟨hne, heq⟩ := List.mem_getLast?_eq_getLast (Option.mem_def.mpr hlast)
          rw [heq]
          exact List.getLast_mem hne
        have hpag : p.metadata.pages ≠ 0 := by
          have := hinv.2 id hmem
          omega
        show FreeInv
          (match writeMetadataF 2
              { cache := p.cache, commit := p.commit,
                metadata := { free_pages := p.metadata.free_pages.dropLast,
                              pages := p.metadata.pages, root := p.metadata.root },
                file := p.file } with
            | (q, Except.error e) => (q, Except.error e)
            | (q, Except.ok ()) => (storedPut q id zeroPage, Except.ok id)).1
        have hrw : writeMetadataF 2
            { cache := p.cache, commit := p.commit,
              metadata := { free_pages := p.metadata.free_pages.dropLast,
                            pages := p.metadata.pages, root := p.metadata.root },
              file := p.file } =
            (storedPut
              { cache := p.cache, commit := p.commit,
                metadata := { free_pages := p.metadata.free_pages.dropLast,
                              pages := p.metadata.pages, root := p.metadata.root },
                file := p.file } 0
              (encodeMeta { free_pages := p.metadata.free_pages.dropLast,
                            pages := p.metadata.pages, root := p.metadata.root }),
             Except.ok ()) := writeMetadataF_plain _ 1 hpag
        rw [hrw]
        exact ⟨(List.dropLast_sublist _).nodup hinv.1,
               fun i hi => hinv.2 i ((List.dropLast_sublist _).subset hi)⟩
      | none =>
        show FreeInv
          (match writeMetadataF 2
              { cache := p.cache, commit := p.commit,
                metadata := { free_pages := p.metadata.free_pages,
                              pages := p.metadata.pages + 1, root := p.metadata.root },
                file := p.file } with
            | (q, Except.error e) => (q, Except.error e)
            | (q, Except.ok ()) => (storedPut q p.metadata.pages zeroPage,
                                    Except.ok p.metadata.pages)).1
        have hrw : writeMetadataF 2
            { cache := p.cache, commit := p.commit,
              metadata := { free_pages := p.metadata.free_pages,
                            pages := p.metadata.pages + 1, root := p.metadata.root },
              file := p.file } =
            (storedPut
              { cache := p.cache, commit := p.commit,
                metadata := { free_pages := p.metadata.free_pages,
                              pages := p.metadata.pages + 1, root := p.metadata.root },
                file := p.file } 0
              (encodeMeta { free_pages := p.metadata.free_pages,
                            pages := p.metadata.pages + 1, root := p.metadata.root }),
             Except.ok ()) := writeMetadataF_plain _ 1 (Nat.succ_ne_zero _)
        rw [hrw]
        refine ⟨hinv.1, ?_⟩
        intro i hi
        show i < p.metadata.pages + 1
        have := hinv.2 i hi
        omega
    | freeOp id =>
      show FreeInv (free p id).1
      have hnotin : id ∉ p.metadata.free_pages := hfresh id rfl
      unfold free
      by_cases hv : isValid p id
      · rw [if_pos hv]
        have hlt : id < p.metadata.pages := by
          by_cases h1 : p.metadata.pages ≤ id
          · unfold isValid at hv
            simp [h1] at hv
            exact absurd hv hnotin
          · omega
        have hpag : p.metadata.pages ≠ 0 := by omega
        unfold writeMetadata
        have hrw : writeMetadataF 3
            { cache := mapDel p.cache id, commit := p.commit,
              metadata := { free_pages := p.metadata.free_pages ++ [id],
                            pages := p.metadata.pages, root := p.metadata.root },
              file := p.file } =
            (storedPut
              { cache := mapDel p.cache id, commit := p.commit,
                metadata := { free_pages := p.metadata.free_pages ++ [id],
                              pages := p.metadata.pages, root := p.metadata.root },
                file := p.file } 0
              (encodeMeta { free_pages := p.metadata.free_pages ++ [id],
                            pages := p.metadata.pages, root := p.metadata.root }),
             Except.ok ()) := writeMetadataF_plain _ 2 hpag
        rw [hrw]
        refine ⟨?_, ?_⟩
        · show (p.metadata.free_pages ++ [id]).Nodup
          rw [← List.concat_eq_append]
          exact List.Nodup.concat hnotin hinv.1
        · intro i hi
          show i < p.metadata.pages
          rcases List.mem_append.mp hi with h | h
          · exact hinv.2 i h
          · rcases List.mem_singleton.mp h with rfl
            exact hlt
      · rw [if_neg hv]
        exact hinv
    | writeOp id image =>
      show FreeInv (write p id image).1
      unfold write
      by_cases hv : isValid p id
      · rw [if_pos hv]
        exact hinv
      · rw [if_neg hv]
        exact hinv
    | readOp id =>
      show FreeInv (readImage p id).1
      unfold readImage storedGet
      by_cases hv : isValid p id
      · rw [if_pos hv]
        cases mapGet p.cache id with
        | some b => exact hinv
        | none =>
          cases mapGet p.file (id * PAGE_SIZE) with
          | some b => exact hinv
          | none => exact hinv
      · rw [if_neg hv]
        exact hinv
    | flushOp =>
      show FreeInv (flush p)
      unfold flush
      by_cases hc : !p.commit
      · rw [if_pos hc]
        exact hinv
      · rw [if_neg hc]
        exact hinv
    | commitOp b => exact hinv
    | setRootOp id =>
      show FreeInv (setRoot p id).1
      unfold setRoot writeMetadata
      by_cases hpag : p.metadata.pages = 0
      · have hfree : p.metadata.free_pages = [] := by
          cases hf : p.metadata.free_pages with
          | nil => rfl
          | cons a t =>
            have := hinv.2 a (by rw [hf]; exact List.mem_cons_self a t)
            omega
        rcases p with ⟨cache, commit, meta, file⟩
        rcases meta with ⟨fp, pg, rt⟩
        simp only at hfree hpag
        subst hfree hpag
        exact ⟨List.nodup_nil, fun i hi => absurd hi (List.not_mem_nil i)⟩
      · have hrw : writeMetadataF 3
            { cache := p.cache, commit := p.commit,
              metadata := { free_pages := p.metadata.free_pages,
                            pages := p.metadata.pages, root := id },
              file := p.file } =
            (storedPut
              { cache := p.cache, commit := p.commit,
                metadata := { free_pages := p.metadata.free_pages,
                              pages := p.metadata.pages, root := id },
                file := p.file } 0
              (encodeMeta { free_pages := p.metadata.free_pages,
                            pages := p.metadata.pages, root := id }),
             Except.ok ()) := writeMetadataF_plain _ 2 hpag
        rw [hrw]
        exact ⟨hinv.1, fun i hi => hinv.2 i hi⟩

/-- C8, witness for the amended theorem: the invariant holds after an
allocation on a fresh pager. -/
theorem free_list_invariant_preserved_witness :
    FreeInv (exec openFresh Op.allocateOp) :=
  free_list_invariant_preserved.2 openFresh Op.allocateOp (by decide)
    (fun id h => by cases h)

end PagerE
